import Mathlib

/-!
# TrafficLight.cpp: message queue and phase controller

A shallow embedding of `src/TrafficLight.cpp`.

* `MessageQueue<T>` is a record around the container `_queue`; the container
  is a list whose last element is the container's `back()`.  The mutex and the
  condition variable are not represented: `send` and `receive` each run
  entirely under `_mtx`, so each is one atomic step on the container.  A
  `receive` whose wait predicate `!_queue.empty()` is false does not return;
  it is modelled by the result `none`.
* `TrafficLight` holds `_currentPhase` and the queue.  The loop of
  `cycleThroughPhases` is a step function over the two local variables `t1`
  and `cycleDuration`; every clock reading and every random draw is an input.
-/

namespace TrafficSim

/-! ## MessageQueue -/

/-- The class template `MessageQueue<T>`: the member `_queue`, front first,
`back()` last. -/
structure MessageQueue (T : Type) where
  _queue : List T
deriving DecidableEq, Repr

namespace MessageQueue

variable {T : Type}

/-- A default-constructed queue (`std::make_shared<MessageQueue<T>>()`). -/
def new : MessageQueue T := ⟨[]⟩

/-- The method `MessageQueue<T>::send`: clear the container when it is not empty, then
`push_back(msg)`. -/
def send (q : MessageQueue T) (msg : T) : MessageQueue T :=
  let cleared : List T := if !q._queue.isEmpty then [] else q._queue
  ⟨cleared ++ [msg]⟩

/-- The method `MessageQueue<T>::receive`: once the wait predicate `!_queue.empty()`
holds, move `back()` out, `pop_back()`, and return the message together with
the queue left behind.  `none` stands for a call that is still blocked in
`_cond.wait`. -/
def receive (q : MessageQueue T) : Option (T × MessageQueue T) :=
  match q._queue.getLast? with
  | none => none
  | some msg => some (msg, ⟨q._queue.dropLast⟩)

/-- An operation on the queue, as issued by some thread. -/
inductive Op (T : Type) where
  | send (msg : T)
  | receive
deriving DecidableEq, Repr

/-- One operation applied to the queue; a `receive` on an empty queue is not
enabled. -/
def applyOp (q : MessageQueue T) : Op T → Option (MessageQueue T)
  | .send msg => some (q.send msg)
  | .receive => (q.receive).map Prod.snd

/-- A sequence of operations applied in order, keeping every intermediate
queue (the queue after the first operation first).  `none` when some
`receive` of the sequence is issued on an empty queue. -/
def runOps (q : MessageQueue T) : List (Op T) → Option (List (MessageQueue T))
  | [] => some []
  | op :: ops =>
    match applyOp q op with
    | none => none
    | some q1 =>
      match runOps q1 ops with
      | none => none
      | some qs => some (q1 :: qs)

/-- For each value in turn: `send` it, then `receive` once.  Returns the
received values in order, the queue after each `receive`, and the final queue;
`none` if some `receive` would block. -/
def sendReceiveEach (q : MessageQueue T) :
    List T → Option (List T × List (MessageQueue T) × MessageQueue T)
  | [] => some ([], [], q)
  | v :: vs =>
    match (q.send v).receive with
    | none => none
    | some (r, q1) =>
      match sendReceiveEach q1 vs with
      | none => none
      | some (rs, qs, qf) => some (r :: rs, q1 :: qs, qf)

end MessageQueue

/-! ## TrafficLight -/

/-- The enumeration `TrafficLightPhase`.  Its declaration is in
`TrafficLight.h`; the two enumerators are the ones `TrafficLight.cpp` names. -/
inductive TrafficLightPhase where
  | red
  | green
deriving DecidableEq, Repr

/-- The data members of `TrafficLight` that `TrafficLight.cpp` reads and
writes.  `_mutex` is represented only by the atomicity of the steps below. -/
structure TrafficLight where
  _currentPhase : TrafficLightPhase
  _traficLightPhaseQueue : MessageQueue TrafficLightPhase
deriving DecidableEq, Repr

namespace TrafficLight

/-- The constructor `TrafficLight::TrafficLight()`: phase `red`, a fresh queue. -/
def new : TrafficLight :=
  { _currentPhase := TrafficLightPhase.red
    _traficLightPhaseQueue := MessageQueue.new }

/-- The method `TrafficLight::getCurrentPhase()`: the returned value and the object
after the call. -/
def getCurrentPhase (tl : TrafficLight) : TrafficLightPhase × TrafficLight :=
  (tl._currentPhase, tl)

/-- The assignment of line 122:
`(_currentPhase == red) ? green : red`. -/
def toggled (p : TrafficLightPhase) : TrafficLightPhase :=
  if p = TrafficLightPhase.red then TrafficLightPhase.green else TrafficLightPhase.red

/-- The method `TrafficLight::waitForGreen()`.  `recv k` is the value that the
`k`-th call of `receive()` made by this invocation returns (counting from 0);
`next` is the number of calls made so far.  The result is the total number of
`receive()` calls made when the function returns; `none` when the loop has
not left after `fuel` iterations. -/
def waitForGreenFrom (recv : Nat → TrafficLightPhase) : Nat → Nat → Option Nat
  | 0, _ => none
  | fuel + 1, next =>
    let tflCheck := recv next
    if tflCheck = TrafficLightPhase.green then some (next + 1)
    else waitForGreenFrom recv fuel (next + 1)

/-- The method `waitForGreen` from its entry: no `receive()` call made yet. -/
def waitForGreen (recv : Nat → TrafficLightPhase) (fuel : Nat) : Option Nat :=
  waitForGreenFrom recv fuel 0

end TrafficLight

/-! ## cycleThroughPhases -/

/-- Ticks of `std::chrono::high_resolution_clock` per second (a nanosecond
period, as in libstdc++ and libc++). -/
def ticksPerSecond : Int := 1000000000

/-- The expression
`duration_cast<seconds>(now - t1).count()`: the tick difference divided by
the ticks per second, rounded toward zero. -/
def elapsedSeconds (t1 now : Int) : Int :=
  Int.tdiv (now - t1) ticksPerSecond

/-- A value returned by `std::uniform_int_distribution<>(a, b)`: an integer
of the closed range from `a` to `b`. -/
structure UniformInt (a b : Int) where
  val : Int
  lo : a ≤ val
  hi : val ≤ b

/-- What one pass of the `while (true)` body reads from outside: the clock at
line 109, the value `distr(eng)` of line 116 and the clock at line 128 (the
last two are read only when the `if` is entered). -/
structure LoopInput where
  now : Int
  draw : UniformInt 4 6
  now2 : Int

/-- The state of the thread running `cycleThroughPhases` together with the
object it works on: the locals `t1` and `cycleDuration`, and `sent`, the
arguments of every `send` call made so far, oldest first. -/
structure CycleState where
  light : TrafficLight
  t1 : Int
  cycleDuration : Int
  sent : List TrafficLightPhase

/-- Entry of `cycleThroughPhases` (lines 102 and 105): `t1` is the clock
reading `t0`, `cycleDuration` is `4`. -/
def cycleStart (tl : TrafficLight) (t0 : Int) : CycleState :=
  { light := tl, t1 := t0, cycleDuration := 4, sent := [] }

/-- The body of the `if` (lines 112 to 128). -/
def transition (s : CycleState) (i : LoopInput) : CycleState :=
  let cycleDuration := i.draw.val
  let phase := TrafficLight.toggled s.light._currentPhase
  let t := phase
  { light :=
      { _currentPhase := phase
        _traficLightPhaseQueue := s.light._traficLightPhaseQueue.send t }
    t1 := i.now2
    cycleDuration := cycleDuration
    sent := s.sent ++ [t] }

/-- The condition of line 110. -/
def fires (s : CycleState) (now : Int) : Bool :=
  decide (elapsedSeconds s.t1 now ≥ s.cycleDuration)

/-- One pass of the `while (true)` body of `cycleThroughPhases`. -/
def cycleIteration (s : CycleState) (i : LoopInput) : CycleState :=
  if fires s i.now then transition s i else s

/-- What can happen to a started traffic light: the cycle thread runs one
pass of its loop, or a waiter completes one `receive()` on the queue. -/
inductive Event where
  | iteration (i : LoopInput)
  | receive

/-- One event.  A `receive()` on an empty queue stays blocked and changes
nothing. -/
def stepEvent (s : CycleState) : Event → CycleState
  | .iteration i => cycleIteration s i
  | .receive =>
    match s.light._traficLightPhaseQueue.receive with
    | none => s
    | some (_, q) => { s with light := { s.light with _traficLightPhaseQueue := q } }

/-- A sequence of events, in order. -/
def runEvents (s : CycleState) (es : List Event) : CycleState :=
  es.foldl stepEvent s

/-- The method `TrafficLight::cycleThroughPhases()` on the object `tl`,
entered at clock reading `t0`: the state after the loop passes that read
`inputs`, with no waiter receiving in between.  The loop itself never ends. -/
def cycleThroughPhases (tl : TrafficLight) (t0 : Int) (inputs : List LoopInput) : CycleState :=
  runEvents (cycleStart tl t0) (inputs.map Event.iteration)

/-- The loop passes at clock readings `6, 12, ...` seconds after `t0`, `k` of
them, each redrawing the threshold 4. -/
def steadyInputs (t0 : Int) : Nat → List LoopInput
  | 0 => []
  | k + 1 =>
    steadyInputs t0 k ++
      [{ now := t0 + 6 * ticksPerSecond * (k + 1)
         draw := ⟨4, by decide, by decide⟩
         now2 := t0 + 6 * ticksPerSecond * (k + 1) }]

/-- The phases sent so far alternate starting with `green`, and the current
phase is the one the number of sends determines. -/
def Alternating (s : CycleState) : Prop :=
  s.sent = (List.range s.sent.length).map
      (fun k => if k % 2 = 0 then TrafficLightPhase.green else TrafficLightPhase.red)
  ∧ s.light._currentPhase
      = if s.sent.length % 2 = 0 then TrafficLightPhase.red else TrafficLightPhase.green

/-- An event that leaves the cycle thread before its first transition: a
waiter's `receive`, or a loop pass reading the clock less than 4 whole seconds
after the start reading `t0`. -/
def BeforeFirst (t0 : Int) : Event → Prop
  | .iteration i => elapsedSeconds t0 i.now < 4
  | .receive => True

/-! ## The block guarded by `_mutex`, statement by statement -/

/-- Where the cycle thread is with respect to the block of lines 119 to 128:
outside it (`_mutex` free), holding `_mutex` before line 122, after the
assignment of line 122, after the `send` of line 125. -/
inductive TogglePc where
  | idle
  | locked
  | flipped
  | published
deriving DecidableEq, Repr

/-- The traffic light and the position of the cycle thread. -/
structure Controller where
  light : TrafficLight
  pc : TogglePc
deriving DecidableEq, Repr

/-- The statements of the cycle thread inside the block, and a waiter's
`receive()`, which takes only the queue's own `_mtx`. -/
inductive Action where
  | lock
  | flip
  | publish
  | unlock
  | receive
deriving DecidableEq, Repr

namespace Controller

/-- A newly constructed traffic light, the cycle thread outside the block. -/
def init : Controller := { light := TrafficLight.new, pc := TogglePc.idle }

/-- One statement.  `none` when the statement is not the next one of the
cycle thread, or when a `receive()` finds the queue empty. -/
def step (c : Controller) : Action → Option Controller
  | .lock => if c.pc = TogglePc.idle then some { c with pc := TogglePc.locked } else none
  | .flip =>
    if c.pc = TogglePc.locked then
      some { light := { c.light with _currentPhase := TrafficLight.toggled c.light._currentPhase }
             pc := TogglePc.flipped }
    else none
  | .publish =>
    if c.pc = TogglePc.flipped then
      some { light := { c.light with
                        _traficLightPhaseQueue :=
                          c.light._traficLightPhaseQueue.send c.light._currentPhase }
             pc := TogglePc.published }
    else none
  | .unlock => if c.pc = TogglePc.published then some { c with pc := TogglePc.idle } else none
  | .receive =>
    match c.light._traficLightPhaseQueue.receive with
    | none => none
    | some (_, q) => some { c with light := { c.light with _traficLightPhaseQueue := q } }

/-- A sequence of statements, in order. -/
def run (c : Controller) : List Action → Option Controller
  | [] => some c
  | a :: as =>
    match step c a with
    | none => none
    | some c1 => run c1 as

/-- The value `getCurrentPhase()` returns in this state; the call needs
`_mutex`, so it completes only while the cycle thread is outside the block. -/
def observe (c : Controller) : Option TrafficLightPhase :=
  if c.pc = TogglePc.idle then some (c.light.getCurrentPhase).1 else none

end Controller

/-- What holds of the queue at each position of the cycle thread: the queue
is empty or holds one value, which is the current phase, except between the
assignment of line 122 and the `send` of line 125, where it is the phase from
before the assignment. -/
def Controller.Consistent (c : Controller) : Prop :=
  match c.pc with
  | TogglePc.flipped =>
    c.light._traficLightPhaseQueue._queue = [] ∨
      c.light._traficLightPhaseQueue._queue = [TrafficLight.toggled c.light._currentPhase]
  | _ =>
    c.light._traficLightPhaseQueue._queue = [] ∨
      c.light._traficLightPhaseQueue._queue = [c.light._currentPhase]

/-! ## Helper lemmas on the queue -/

namespace MessageQueue

variable {T : Type}

theorem send_queue (q : MessageQueue T) (msg : T) : (q.send msg)._queue = [msg] := by
  cases q with
  | mk l => cases l <;> simp [send]

theorem send_eq (q : MessageQueue T) (msg : T) : q.send msg = ⟨[msg]⟩ := by
  cases q with
  | mk l => cases l <;> simp [send]

theorem receive_single (msg : T) :
    receive (⟨[msg]⟩ : MessageQueue T) = some (msg, ⟨[]⟩) := by
  simp [receive]

theorem receive_empty : receive (⟨[]⟩ : MessageQueue T) = none := by
  simp [receive]

theorem receive_length (q r : MessageQueue T) (msg : T)
    (h : q.receive = some (msg, r)) : r._queue.length = q._queue.length - 1 := by
  unfold receive at h
  split at h
  · simp at h
  · simp only [Option.some.injEq, Prod.mk.injEq] at h
    rw [← h.2]
    simp

end MessageQueue

/-! ## Properties of the queue -/

/-- C1. From every queue state `q` (empty, holding one pending value, or any
other container content), `send(a)` then `send(b)` then `receive()` returns
`b` and leaves the container empty; after the second `send` the container is
exactly `[b]`, so the value `a` is gone, and the returned value differs from
`a` whenever `a` and `b` differ. -/
theorem C1_overwrite_semantics {T : Type} (q : MessageQueue T) (a b : T) :
    ((q.send a).send b).receive = some (b, ⟨[]⟩)
    ∧ ((q.send a).send b)._queue = [b]
    ∧ (∀ r q1, ((q.send a).send b).receive = some (r, q1) →
        r = b ∧ q1._queue = [] ∧ (a ≠ b → r ≠ a)) := by
  have h : ((q.send a).send b).receive = some (b, ⟨[]⟩) := by
    rw [MessageQueue.send_eq (q.send a) b, MessageQueue.receive_single]
  refine ⟨h, MessageQueue.send_queue _ _, ?_⟩
  intro r q1 hr
  rw [h] at hr
  simp only [Option.some.injEq, Prod.mk.injEq] at hr
  obtain ⟨h1, h2⟩ := hr
  subst h1
  subst h2
  exact ⟨rfl, rfl, fun hab => fun hba => hab hba.symm⟩


/-- Running operations from a queue that holds at most one item keeps every
intermediate queue at no more than one item, and exactly the sent item right
after a `send`. -/
theorem MessageQueue.runOps_invariant {T : Type} (ops : List (MessageQueue.Op T)) :
    ∀ (q : MessageQueue T) (qs : List (MessageQueue T)),
      q._queue.length ≤ 1 → MessageQueue.runOps q ops = some qs →
      qs.length = ops.length ∧
      ∀ p ∈ ops.zip qs, p.2._queue.length ≤ 1 ∧
        ∀ v, p.1 = MessageQueue.Op.send v → p.2._queue = [v] := by
  induction ops with
  | nil =>
    intro q qs _ h
    simp only [MessageQueue.runOps, Option.some.injEq] at h
    subst h
    simp
  | cons op ops ih =>
    intro q qs hq h
    simp only [MessageQueue.runOps] at h
    split at h
    · simp at h
    · rename_i q1 h1
      split at h
      · simp at h
      · rename_i qs1 h2
        simp only [Option.some.injEq] at h
        subst h
        have hq1 : q1._queue.length ≤ 1 ∧
            ∀ v, op = MessageQueue.Op.send v → q1._queue = [v] := by
          cases op with
          | send msg =>
            simp only [MessageQueue.applyOp, Option.some.injEq] at h1
            subst h1
            refine ⟨by simp [MessageQueue.send_queue], ?_⟩
            intro v hv
            cases hv
            exact MessageQueue.send_queue q msg
          | receive =>
            simp only [MessageQueue.applyOp, Option.map_eq_some'] at h1
            obtain ⟨⟨m, r⟩, hr, hrq⟩ := h1
            simp only at hrq
            subst hrq
            have := MessageQueue.receive_length q r m hr
            refine ⟨by omega, ?_⟩
            intro v hv
            cases hv
        obtain ⟨hl, hall⟩ := ih q1 qs1 hq1.1 h2
        refine ⟨by simp [hl], ?_⟩
        intro p hp
        simp only [List.zip_cons_cons, List.mem_cons] at hp
        rcases hp with hp | hp
        · subst hp
          exact hq1
        · exact hall p hp

/-- C2. Starting from a newly created queue, whenever a sequence of `send`
and `receive` operations can be carried out (no `receive` is taken on an empty
queue), the queue after each operation holds 0 or 1 items, and the queue right
after a `send(v)` holds exactly the one item `v`. -/
theorem C2_single_slot_invariant {T : Type} (ops : List (MessageQueue.Op T))
    (qs : List (MessageQueue T))
    (h : MessageQueue.runOps (MessageQueue.new : MessageQueue T) ops = some qs) :
    qs.length = ops.length ∧
    ∀ p ∈ ops.zip qs, p.2._queue.length ≤ 1 ∧
      ∀ v, p.1 = MessageQueue.Op.send v → p.2._queue = [v] :=
  MessageQueue.runOps_invariant ops MessageQueue.new qs (by simp [MessageQueue.new]) h

/-- C2 at a concrete run: send 1, send 2, receive, send 3. -/
theorem C2_single_slot_invariant_witness :
    MessageQueue.runOps (MessageQueue.new : MessageQueue Nat)
        [.send 1, .send 2, .receive, .send 3]
      = some [⟨[1]⟩, ⟨[2]⟩, ⟨[]⟩, ⟨[3]⟩]
    ∧ ([⟨[1]⟩, ⟨[2]⟩, ⟨[]⟩, ⟨[3]⟩] : List (MessageQueue Nat)).length = 4
    ∧ ∀ p ∈ ([.send 1, .send 2, .receive, .send 3] : List (MessageQueue.Op Nat)).zip
          ([⟨[1]⟩, ⟨[2]⟩, ⟨[]⟩, ⟨[3]⟩] : List (MessageQueue Nat)),
        p.2._queue.length ≤ 1 ∧ ∀ v, p.1 = MessageQueue.Op.send v → p.2._queue = [v] :=
  ⟨by decide,
   C2_single_slot_invariant [.send 1, .send 2, .receive, .send 3]
     [⟨[1]⟩, ⟨[2]⟩, ⟨[]⟩, ⟨[3]⟩] (by decide)⟩

/-- Send-then-receive rounds from any queue return the sent values and end on
an empty queue each time. -/
theorem MessageQueue.sendReceiveEach_eq {T : Type} (vs : List T) :
    ∀ q : MessageQueue T, vs ≠ [] ∨ q = ⟨[]⟩ →
      MessageQueue.sendReceiveEach q vs
        = some (vs, List.replicate vs.length ⟨[]⟩, ⟨[]⟩) := by
  induction vs with
  | nil =>
    intro q hq
    rcases hq with hq | hq
    · exact absurd rfl hq
    · subst hq
      rfl
  | cons v vs ih =>
    intro q _
    simp only [MessageQueue.sendReceiveEach, MessageQueue.send_eq,
      MessageQueue.receive_single, ih ⟨[]⟩ (Or.inr rfl), List.length_cons,
      List.replicate_succ]

/-- C3. From an empty queue, sending `v1 .. vn` with one `receive()` right
after each `send` returns exactly `v1 .. vn` in order (the i-th receive returns
the i-th sent value, so the receives correspond one to one to the sends), the
queue is empty after each `receive`, and a further `receive` on that empty
queue is not enabled. -/
theorem C3_no_duplicate_delivery {T : Type} (vs : List T) :
    MessageQueue.sendReceiveEach (MessageQueue.new : MessageQueue T) vs
        = some (vs, List.replicate vs.length ⟨[]⟩, ⟨[]⟩)
    ∧ (∀ i (h : i < vs.length), ∃ rs qs qf,
        MessageQueue.sendReceiveEach (MessageQueue.new : MessageQueue T) vs = some (rs, qs, qf)
        ∧ rs[i]? = some (vs.get ⟨i, h⟩) ∧ qs[i]? = some ⟨[]⟩)
    ∧ MessageQueue.receive (⟨[]⟩ : MessageQueue T) = none := by
  have h := MessageQueue.sendReceiveEach_eq vs (MessageQueue.new : MessageQueue T) (Or.inr rfl)
  refine ⟨h, ?_, MessageQueue.receive_empty⟩
  intro i hi
  refine ⟨vs, List.replicate vs.length ⟨[]⟩, ⟨[]⟩, h, ?_, ?_⟩
  · simp [List.getElem?_eq_getElem hi]
  · simp [List.getElem?_replicate, hi]

/-! ## Phase alternation -/

theorem alternating_start (t0 : Int) : Alternating (cycleStart TrafficLight.new t0) := by
  simp [Alternating, cycleStart, TrafficLight.new]

theorem alternating_transition (s : CycleState) (i : LoopInput) (h : Alternating s) :
    Alternating (transition s i) := by
  obtain ⟨h1, h2⟩ := h
  constructor
  · simp only [transition, List.length_append, List.length_singleton, List.range_succ,
      List.map_append, List.map_cons, List.map_nil]
    rw [← h1, h2]
    rcases Nat.mod_two_eq_zero_or_one s.sent.length with h | h <;>
      simp [h, TrafficLight.toggled]
  · simp only [transition, List.length_append, List.length_singleton]
    rw [h2]
    rcases Nat.mod_two_eq_zero_or_one s.sent.length with h | h <;>
      simp [h, TrafficLight.toggled, Nat.add_mod]

theorem alternating_step (s : CycleState) (e : Event) (h : Alternating s) :
    Alternating (stepEvent s e) := by
  cases e with
  | iteration i =>
    simp only [stepEvent, cycleIteration]
    split
    · exact alternating_transition s i h
    · exact h
  | receive =>
    simp only [stepEvent]
    split
    · exact h
    · exact h

theorem alternating_run (es : List Event) :
    ∀ s : CycleState, Alternating s → Alternating (runEvents s es) := by
  induction es with
  | nil => intro s h; exact h
  | cons e es ih =>
    intro s h
    exact ih (stepEvent s e) (alternating_step s e h)

theorem runEvents_append (s : CycleState) (es fs : List Event) :
    runEvents s (es ++ fs) = runEvents (runEvents s es) fs := by
  simp [runEvents, List.foldl_append]

theorem elapsed_six (t : Int) (k : Nat) :
    elapsedSeconds (t + 6 * ticksPerSecond * (k : Int))
      (t + 6 * ticksPerSecond * ((k : Int) + 1)) = 6 := by
  have h : t + 6 * ticksPerSecond * ((k : Int) + 1) - (t + 6 * ticksPerSecond * (k : Int))
      = 6000000000 := by
    simp only [ticksPerSecond]
    ring
  rw [elapsedSeconds, h]
  decide

/-- After the `k` loop passes of `steadyInputs`, exactly `k` phases have been
sent. -/
theorem steady_run (t0 : Int) (k : Nat) :
    (cycleThroughPhases TrafficLight.new t0 (steadyInputs t0 k)).sent.length = k
    ∧ (cycleThroughPhases TrafficLight.new t0 (steadyInputs t0 k)).t1
        = t0 + 6 * ticksPerSecond * (k : Int)
    ∧ (cycleThroughPhases TrafficLight.new t0 (steadyInputs t0 k)).cycleDuration = 4 := by
  induction k with
  | zero => simp [steadyInputs, cycleThroughPhases, runEvents, cycleStart]
  | succ k ih =>
    obtain ⟨h1, h2, h3⟩ := ih
    have hf : fires (cycleThroughPhases TrafficLight.new t0 (steadyInputs t0 k))
        (t0 + 6 * ticksPerSecond * ((k : Int) + 1)) = true := by
      simp only [fires, h2, h3, elapsed_six, decide_eq_true_eq]
      decide
    simp only [cycleThroughPhases, steadyInputs, List.map_append, runEvents_append]
    simp only [cycleThroughPhases] at hf h1
    simp only [List.map_cons, List.map_nil, runEvents, List.foldl_cons, List.foldl_nil,
      stepEvent, cycleIteration]
    simp only [runEvents] at hf h1
    rw [if_pos hf]
    simp [transition, h1]

/-- C4. For a newly constructed traffic light whose cycle thread starts at
any clock reading, and after any sequence of loop passes (any clock readings,
any draws) interleaved with waiters' receives: the n-th phase sent (n from 1)
is `green` for odd n and `red` for even n; `red` followed by the sent phases
has no two equal neighbours; and for every k some sequence of loop passes of
`cycleThroughPhases` sends exactly k phases. -/
theorem C4_phase_alternation (t0 : Int) (es : List Event) :
    (∀ n : Nat, 1 ≤ n → n ≤ (runEvents (cycleStart TrafficLight.new t0) es).sent.length →
      (runEvents (cycleStart TrafficLight.new t0) es).sent[n - 1]?
        = some (if n % 2 = 1 then TrafficLightPhase.green else TrafficLightPhase.red))
    ∧ List.Chain' (fun a b => a ≠ b)
        (TrafficLightPhase.red :: (runEvents (cycleStart TrafficLight.new t0) es).sent)
    ∧ (∀ k : Nat, ∃ inputs : List LoopInput,
        (cycleThroughPhases TrafficLight.new t0 inputs).sent.length = k) := by
  have hA := alternating_run es _ (alternating_start t0)
  obtain ⟨h1, _⟩ := hA
  generalize (runEvents (cycleStart TrafficLight.new t0) es).sent = l at h1
  have hnth : ∀ n : Nat, 1 ≤ n → n ≤ l.length →
      l[n - 1]? = some (if n % 2 = 1 then TrafficLightPhase.green
        else TrafficLightPhase.red) := by
    intro n hn hl
    rw [h1]
    have hlt : n - 1 < l.length := by omega
    simp only [List.getElem?_map, List.length_map, List.length_range]
    rw [List.getElem?_range hlt]
    simp only [Option.map_some']
    rcases Nat.mod_two_eq_zero_or_one n with h | h
    · have : (n - 1) % 2 = 1 := by omega
      simp [h, this]
    · have : (n - 1) % 2 = 0 := by omega
      simp [h, this]
  refine ⟨hnth, ?_, fun k => ⟨steadyInputs t0 k, (steady_run t0 k).1⟩⟩
  rw [List.chain'_iff_get]
  intro i hi
  simp only [List.length_cons, Nat.add_sub_cancel] at hi
  simp only [List.get_eq_getElem]
  have hnext := hnth (i + 1) (by omega) (by omega)
  simp only [Nat.add_sub_cancel] at hnext
  have hi2 : i < l.length := hi
  have hget : (TrafficLightPhase.red :: l)[i + 1] = l[i] := by simp
  rw [hget]
  rw [List.getElem?_eq_getElem hi2] at hnext
  simp only [Option.some.injEq] at hnext
  rw [hnext]
  cases i with
  | zero => simp
  | succ j =>
    have hprev := hnth (j + 1) (by omega) (by omega)
    simp only [Nat.add_sub_cancel] at hprev
    have hj : j < l.length := by omega
    rw [List.getElem?_eq_getElem hj] at hprev
    simp only [Option.some.injEq] at hprev
    have hget2 : (TrafficLightPhase.red :: l)[j + 1] = l[j] := by simp
    rw [hget2, hprev]
    rcases Nat.mod_two_eq_zero_or_one j with h | h
    · have e1 : (j + 1) % 2 = 1 := by omega
      have e2 : (j + 1 + 1) % 2 = 0 := by omega
      simp [e1, e2]
    · have e1 : (j + 1) % 2 = 0 := by omega
      have e2 : (j + 1 + 1) % 2 = 1 := by omega
      simp [e1, e2]

/-! ## waitForGreen -/

theorem TrafficLightPhase.eq_red_of_ne_green (p : TrafficLightPhase)
    (h : p ≠ TrafficLightPhase.green) : p = TrafficLightPhase.red := by
  cases p
  · rfl
  · exact absurd rfl h

/-- With a first `green` at call `k`, the loop started at call `next` returns
after call `k`, given more than `k - next` iterations. -/
theorem TrafficLight.waitForGreenFrom_returns (recv : Nat → TrafficLightPhase) (k : Nat)
    (hk : recv k = TrafficLightPhase.green) :
    ∀ fuel next : Nat, next ≤ k → k - next < fuel →
      (∀ j, next ≤ j → j < k → recv j = TrafficLightPhase.red) →
      TrafficLight.waitForGreenFrom recv fuel next = some (k + 1) := by
  intro fuel
  induction fuel with
  | zero => intro next _ h; omega
  | succ fuel ih =>
    intro next hle hf hred
    simp only [TrafficLight.waitForGreenFrom]
    by_cases hn : next = k
    · subst hn
      simp [hk]
    · have hlt : next < k := by omega
      have hr := hred next (Nat.le_refl _) hlt
      rw [hr]
      simp only [reduceCtorEq, if_false]
      exact ih (next + 1) (by omega) (by omega) (fun j h1 h2 => hred j (by omega) h2)

/-- Whenever the loop returns, the last value received is `green`, all the
values received before it are `red`, and nothing further was received. -/
theorem TrafficLight.waitForGreenFrom_sound (recv : Nat → TrafficLightPhase) :
    ∀ fuel next n : Nat, TrafficLight.waitForGreenFrom recv fuel next = some n →
      next < n ∧ recv (n - 1) = TrafficLightPhase.green ∧
      ∀ j, next ≤ j → j < n - 1 → recv j = TrafficLightPhase.red := by
  intro fuel
  induction fuel with
  | zero => intro next n h; simp [TrafficLight.waitForGreenFrom] at h
  | succ fuel ih =>
    intro next n h
    simp only [TrafficLight.waitForGreenFrom] at h
    by_cases hg : recv next = TrafficLightPhase.green
    · rw [if_pos hg] at h
      simp only [Option.some.injEq] at h
      subst h
      refine ⟨by omega, by simpa using hg, ?_⟩
      intro j h1 h2
      omega
    · rw [if_neg hg] at h
      obtain ⟨h1, h2, h3⟩ := ih (next + 1) n h
      refine ⟨by omega, h2, ?_⟩
      intro j hj1 hj2
      by_cases hjn : j = next
      · subst hjn
        exact TrafficLightPhase.eq_red_of_ne_green _ hg
      · exact h3 j (by omega) hj2

/-- With only `red` received, the loop is still running after any number of
iterations. -/
theorem TrafficLight.waitForGreenFrom_blocks (recv : Nat → TrafficLightPhase)
    (hred : ∀ j, recv j = TrafficLightPhase.red) :
    ∀ fuel next : Nat, TrafficLight.waitForGreenFrom recv fuel next = none := by
  intro fuel
  induction fuel with
  | zero => intro next; rfl
  | succ fuel ih =>
    intro next
    simp only [TrafficLight.waitForGreenFrom, hred next, reduceCtorEq, if_false]
    exact ih (next + 1)

/-- C5. For every sequence `recv` of values returned by the successive
`receive()` calls of one `waitForGreen` invocation: if the first `green` is
the value of call `k` (all earlier ones `red`), the function returns after
exactly `k + 1` calls, as soon as the loop is given more than `k` iterations;
whenever it returns after `n` calls, the last value received is `green` and
every earlier one is `red`; and if every value is `red` it has not returned
after any number of iterations. -/
theorem C5_waitForGreen_drain_loop (recv : Nat → TrafficLightPhase) :
    (∀ k : Nat, recv k = TrafficLightPhase.green →
      (∀ j, j < k → recv j = TrafficLightPhase.red) →
      ∀ fuel : Nat, k < fuel → TrafficLight.waitForGreen recv fuel = some (k + 1))
    ∧ (∀ fuel n : Nat, TrafficLight.waitForGreen recv fuel = some n →
        1 ≤ n ∧ recv (n - 1) = TrafficLightPhase.green ∧
        ∀ j, j < n - 1 → recv j = TrafficLightPhase.red)
    ∧ ((∀ j, recv j = TrafficLightPhase.red) →
        ∀ fuel : Nat, TrafficLight.waitForGreen recv fuel = none) := by
  refine ⟨?_, ?_, ?_⟩
  · intro k hk hred fuel hf
    exact TrafficLight.waitForGreenFrom_returns recv k hk fuel 0 (Nat.zero_le _)
      (by omega) (fun j _ h => hred j h)
  · intro fuel n h
    obtain ⟨h1, h2, h3⟩ := TrafficLight.waitForGreenFrom_sound recv fuel 0 n h
    exact ⟨h1, h2, fun j hj => h3 j (Nat.zero_le _) hj⟩
  · intro hred fuel
    exact TrafficLight.waitForGreenFrom_blocks recv hred fuel 0

/-- C5 on the received sequence red, red, green, red, red, ...: the
function returns after three calls. -/
theorem C5_waitForGreen_drain_loop_witness :
    TrafficLight.waitForGreen
      (fun k => if k = 2 then TrafficLightPhase.green else TrafficLightPhase.red) 5 = some 3 :=
  (C5_waitForGreen_drain_loop
    (fun k => if k = 2 then TrafficLightPhase.green else TrafficLightPhase.red)).1 2
    (by decide) (fun j hj => by simp [Nat.ne_of_lt hj]) 5 (by decide)

/-! ## getCurrentPhase -/

/-- C8. On a newly constructed traffic light `getCurrentPhase` returns `red`;
in every state it returns the stored `_currentPhase` and leaves the object
(phase and queue) as it was, so a second call right after returns the same
value; a waiter's `receive` or a loop pass that does not enter the `if`
between two calls does not change the value either. -/
theorem C8_getCurrentPhase_snapshot :
    (TrafficLight.getCurrentPhase TrafficLight.new).1 = TrafficLightPhase.red
    ∧ (∀ tl : TrafficLight,
        (tl.getCurrentPhase).1 = tl._currentPhase
        ∧ (tl.getCurrentPhase).2 = tl
        ∧ ((tl.getCurrentPhase).2)._currentPhase = tl._currentPhase
        ∧ ((tl.getCurrentPhase).2)._traficLightPhaseQueue = tl._traficLightPhaseQueue
        ∧ (((tl.getCurrentPhase).2).getCurrentPhase).1 = (tl.getCurrentPhase).1)
    ∧ (∀ s : CycleState,
        ((stepEvent s Event.receive).light.getCurrentPhase).1 = (s.light.getCurrentPhase).1)
    ∧ (∀ (s : CycleState) (i : LoopInput), fires s i.now = false →
        ((stepEvent s (Event.iteration i)).light.getCurrentPhase).1
          = (s.light.getCurrentPhase).1) := by
  refine ⟨rfl, fun tl => ⟨rfl, rfl, rfl, rfl, rfl⟩, ?_, ?_⟩
  · intro s
    simp only [stepEvent, TrafficLight.getCurrentPhase]
    split <;> rfl
  · intro s i h
    simp [stepEvent, cycleIteration, h]

/-! ## Timing of cycleThroughPhases -/

theorem TrafficLight.toggled_ne (p : TrafficLightPhase) : TrafficLight.toggled p ≠ p := by
  cases p <;> simp [TrafficLight.toggled]

theorem transition_ne (s : CycleState) (i : LoopInput) : transition s i ≠ s := by
  intro h
  have h2 : (transition s i).light._currentPhase = s.light._currentPhase := by rw [h]
  exact TrafficLight.toggled_ne _ h2

theorem cycleIteration_eq_transition_iff (s : CycleState) (i : LoopInput) :
    cycleIteration s i = transition s i ↔ s.cycleDuration ≤ elapsedSeconds s.t1 i.now := by
  unfold cycleIteration
  by_cases h : fires s i.now = true
  · rw [if_pos h]
    simp only [fires, decide_eq_true_eq] at h
    exact ⟨fun _ => h, fun _ => rfl⟩
  · rw [if_neg h]
    simp only [fires, decide_eq_true_eq] at h
    exact ⟨fun e => absurd e.symm (transition_ne s i), fun e => absurd e h⟩

theorem cycleIteration_eq_self_iff (s : CycleState) (i : LoopInput) :
    cycleIteration s i = s ↔ elapsedSeconds s.t1 i.now < s.cycleDuration := by
  unfold cycleIteration
  by_cases h : fires s i.now = true
  · rw [if_pos h]
    simp only [fires, decide_eq_true_eq] at h
    exact ⟨fun e => absurd e (transition_ne s i), fun e => absurd h (not_le.mpr e)⟩
  · rw [if_neg h]
    simp only [fires, decide_eq_true_eq] at h
    exact ⟨fun _ => not_le.mp h, fun _ => rfl⟩

theorem beforeFirst_run (t0 : Int) (es : List Event) (h : ∀ e ∈ es, BeforeFirst t0 e) :
    runEvents (cycleStart TrafficLight.new t0) es = cycleStart TrafficLight.new t0 := by
  induction es with
  | nil => rfl
  | cons e es ih =>
    have he := h e (List.mem_cons_self _ _)
    have hstep : stepEvent (cycleStart TrafficLight.new t0) e
        = cycleStart TrafficLight.new t0 := by
      cases e with
      | iteration i =>
        simp only [BeforeFirst] at he
        exact (cycleIteration_eq_self_iff _ i).mpr he
      | receive => rfl
    simp only [runEvents, List.foldl_cons, hstep]
    exact ih (fun e he => h e (List.mem_cons_of_mem _ he))

/-- C6, as stated, fails.  A thread started at clock reading 0 performs its
first transition in a loop pass exactly 4 whole seconds later even when that
pass draws 6; so it is not the case that for each d of 4, 5, 6 some draw makes
the first transition wait until d whole seconds have elapsed. -/
theorem C6_first_threshold_not_drawn :
    elapsedSeconds 0 4000000000 = 4
    ∧ (cycleIteration (cycleStart TrafficLight.new 0)
        ⟨4000000000, ⟨6, by decide, by decide⟩, 4000000000⟩).sent = [TrafficLightPhase.green]
    ∧ ¬ (∀ d : Int, 4 ≤ d → d ≤ 6 → ∃ draw : UniformInt 4 6, ∀ now now2 : Int,
          (cycleIteration (cycleStart TrafficLight.new 0) ⟨now, draw, now2⟩).sent ≠ [] →
            d ≤ elapsedSeconds 0 now) := by
  refine ⟨by decide, by decide, ?_⟩
  intro h
  obtain ⟨draw, hd⟩ := h 6 (by decide) (by decide)
  have h2 := hd 4000000000 4000000000 (by
    have hf : fires (cycleStart TrafficLight.new 0) 4000000000 = true := by decide
    simp [cycleIteration, hf, transition])
  exact absurd h2 (by decide)

/-- C6, amended.  At the entry of `cycleThroughPhases` the threshold is the
constant 4, whatever is drawn later: events before the first transition leave
the start state untouched, and a loop pass performs the first transition
exactly when at least 4 whole seconds have elapsed since the start reading,
for every value it draws.  The threshold in force after a transition is the
value drawn in that transition, which is 4, 5 or 6, and each of these can be
drawn. -/
theorem C6_first_threshold_is_four (t0 : Int) (i : LoopInput) :
    (cycleStart TrafficLight.new t0).cycleDuration = 4
    ∧ (∀ es : List Event, (∀ e ∈ es, BeforeFirst t0 e) →
        runEvents (cycleStart TrafficLight.new t0) es = cycleStart TrafficLight.new t0)
    ∧ (cycleIteration (cycleStart TrafficLight.new t0) i
          = transition (cycleStart TrafficLight.new t0) i
        ↔ 4 ≤ elapsedSeconds t0 i.now)
    ∧ (cycleIteration (cycleStart TrafficLight.new t0) i = cycleStart TrafficLight.new t0
        ↔ elapsedSeconds t0 i.now < 4)
    ∧ (∀ s : CycleState, (transition s i).cycleDuration = i.draw.val
        ∧ 4 ≤ (transition s i).cycleDuration ∧ (transition s i).cycleDuration ≤ 6)
    ∧ (∀ (s : CycleState) (d : Int) (h4 : 4 ≤ d) (h6 : d ≤ 6),
        (transition s ⟨i.now, ⟨d, h4, h6⟩, i.now2⟩).cycleDuration = d) := by
  refine ⟨rfl, beforeFirst_run t0, cycleIteration_eq_transition_iff _ i,
    cycleIteration_eq_self_iff _ i, fun s => ⟨rfl, i.draw.lo, i.draw.hi⟩, ?_⟩
  intro s d h4 h6
  rfl

/-! ## The pending value and the current phase -/

theorem TrafficLight.toggled_toggled (p : TrafficLightPhase) :
    TrafficLight.toggled (TrafficLight.toggled p) = p := by
  cases p <;> rfl

/-- The four statements of the guarded block, run from outside the block,
have the effect on the traffic light that `transition` describes. -/
theorem Controller.block_eq_transition (s : CycleState) (i : LoopInput) :
    Controller.run { light := s.light, pc := TogglePc.idle }
        [Action.lock, Action.flip, Action.publish, Action.unlock]
      = some { light := (transition s i).light, pc := TogglePc.idle } := by
  simp [Controller.run, Controller.step, transition]

theorem Controller.receive_of_consistent (l : List TrafficLightPhase) (x m : TrafficLightPhase)
    (q : MessageQueue TrafficLightPhase) (hl : l = [] ∨ l = [x])
    (h : MessageQueue.receive ⟨l⟩ = some (m, q)) : q._queue = [] := by
  rcases hl with hl | hl
  · subst hl
    simp [MessageQueue.receive] at h
  · subst hl
    simp only [MessageQueue.receive_single, Option.some.injEq, Prod.mk.injEq] at h
    rw [← h.2]

theorem Controller.consistent_step (c d : Controller) (a : Action)
    (hc : c.Consistent) (h : c.step a = some d) : d.Consistent := by
  obtain ⟨⟨phase, ⟨l⟩⟩, pc⟩ := c
  cases a with
  | lock =>
    simp only [Controller.step] at h
    split at h
    · rename_i hpc
      subst hpc
      simp only [Option.some.injEq] at h
      subst h
      exact hc
    · simp at h
  | flip =>
    simp only [Controller.step] at h
    split at h
    · rename_i hpc
      subst hpc
      simp only [Option.some.injEq] at h
      subst h
      simpa [Controller.Consistent, TrafficLight.toggled_toggled] using hc
    · simp at h
  | publish =>
    simp only [Controller.step] at h
    split at h
    · simp only [Option.some.injEq] at h
      subst h
      simp [Controller.Consistent, MessageQueue.send_queue]
    · simp at h
  | unlock =>
    simp only [Controller.step] at h
    split at h
    · rename_i hpc
      subst hpc
      simp only [Option.some.injEq] at h
      subst h
      exact hc
    · simp at h
  | receive =>
    simp only [Controller.step] at h
    split at h
    · simp at h
    · rename_i m q hr
      simp only [Option.some.injEq] at h
      subst h
      cases pc with
      | flipped =>
        exact Or.inl (Controller.receive_of_consistent l _ m q hc hr)
      | idle => exact Or.inl (Controller.receive_of_consistent l _ m q hc hr)
      | locked => exact Or.inl (Controller.receive_of_consistent l _ m q hc hr)
      | published => exact Or.inl (Controller.receive_of_consistent l _ m q hc hr)

theorem Controller.consistent_run (as : List Action) :
    ∀ c d : Controller, c.Consistent → c.run as = some d → d.Consistent := by
  induction as with
  | nil =>
    intro c d hc h
    simp only [Controller.run, Option.some.injEq] at h
    subst h
    exact hc
  | cons a as ih =>
    intro c d hc h
    simp only [Controller.run] at h
    split at h
    · simp at h
    · rename_i c1 h1
      exact ih c1 d (Controller.consistent_step c c1 a hc h1) h

/-- C10. Start from a newly constructed traffic light and run any sequence of
the cycle thread's block statements (take `_mutex`, assign the toggled phase,
`send` it, release `_mutex`) interleaved with waiters' receives.  In every
state so reached in which `_mutex` is free, the queue is empty or holds
exactly one value equal to `_currentPhase`; so whatever `getCurrentPhase`
returns there, every pending value equals it, and a pending `red` never
coexists with an observed `green`. -/
theorem C10_pending_agrees_with_phase (as : List Action) (c : Controller)
    (hrun : Controller.run Controller.init as = some c) (hfree : c.pc = TogglePc.idle) :
    (c.light._traficLightPhaseQueue._queue = [] ∨
      c.light._traficLightPhaseQueue._queue = [c.light._currentPhase])
    ∧ (∀ p, c.observe = some p → ∀ m ∈ c.light._traficLightPhaseQueue._queue, m = p)
    ∧ ¬ (c.observe = some TrafficLightPhase.green
          ∧ TrafficLightPhase.red ∈ c.light._traficLightPhaseQueue._queue) := by
  have hinit : Controller.init.Consistent := by
    simp [Controller.Consistent, Controller.init, TrafficLight.new, MessageQueue.new]
  have hc := Controller.consistent_run as _ c hinit hrun
  have hq : c.light._traficLightPhaseQueue._queue = [] ∨
      c.light._traficLightPhaseQueue._queue = [c.light._currentPhase] := by
    simpa [Controller.Consistent, hfree] using hc
  have hobs : ∀ p, c.observe = some p →
      ∀ m ∈ c.light._traficLightPhaseQueue._queue, m = p := by
    intro p hp m hm
    simp only [Controller.observe, hfree, if_true, TrafficLight.getCurrentPhase,
      Option.some.injEq] at hp
    subst hp
    rcases hq with hq | hq
    · rw [hq] at hm
      simp at hm
    · rw [hq] at hm
      simpa using hm
  refine ⟨hq, hobs, ?_⟩
  rintro ⟨hg, hr⟩
  have := hobs _ hg _ hr
  exact absurd this (by decide)

/-- C10 after one complete pass through the guarded block: the pending value
and the current phase are both `green`. -/
theorem C10_pending_agrees_with_phase_witness :
    Controller.run Controller.init [Action.lock, Action.flip, Action.publish, Action.unlock]
      = some ⟨⟨TrafficLightPhase.green, ⟨[TrafficLightPhase.green]⟩⟩, TogglePc.idle⟩
    ∧ (([] : List TrafficLightPhase) = [TrafficLightPhase.green] → False)
    ∧ ((⟨⟨TrafficLightPhase.green, ⟨[TrafficLightPhase.green]⟩⟩, TogglePc.idle⟩ : Controller).light._traficLightPhaseQueue._queue = [] ∨
        (⟨⟨TrafficLightPhase.green, ⟨[TrafficLightPhase.green]⟩⟩, TogglePc.idle⟩ : Controller).light._traficLightPhaseQueue._queue
          = [TrafficLightPhase.green]) :=
  ⟨by decide, by simp,
   (C10_pending_agrees_with_phase [Action.lock, Action.flip, Action.publish, Action.unlock]
     ⟨⟨TrafficLightPhase.green, ⟨[TrafficLightPhase.green]⟩⟩, TogglePc.idle⟩
     (by decide) rfl).1⟩

end TrafficSim
